import Mathlib

/-!
Shallow embedding of the `tf1` health-check program (`src/main.go`).

The program reads a file of URLs, validates each line, probes each valid
URL over HTTP with bounded concurrency, and prints one result line per
probe.  Network behaviour is abstracted by two oracles:

* `newRequest url` — `some e` when `http.NewRequestWithContext` fails for
  the (malformed) url with error `e`, `none` when request creation succeeds;
* `doRequest url` — what `httpClient.Do` yields: an HTTP response with a
  status code, or a transport-level failure (DNS, refused, reset, timeout).

Go's zero values for the `Result` struct fields (`Status 0`, `Err nil`,
`Latency 0`) are the Lean default field values.
-/

namespace Tf1

/-- Configuration constants (src/main.go lines 87-108). -/
def MaxConcurrentRequests : Nat := 64

/-- Minimum length for "http://" (src/main.go line 102). -/
def MinHTTPURLLength : Nat := 7

/-- Minimum length for "https://" (src/main.go line 103). -/
def MinHTTPSURLLength : Nat := 8

/-- Exit code for success (src/main.go line 106). -/
def ExitSuccess : Nat := 0

/-- Exit code for errors (src/main.go line 107). -/
def ExitError : Nat := 1

/-- The scheme constant "http://" as its character list (Go strings are byte
slices; these urls are ASCII, so characters coincide with bytes). -/
def HTTPScheme : List Char := "http://".toList

/-- The scheme constant "https://" as its character list. -/
def HTTPSScheme : List Char := "https://".toList

/-- The `Result` struct (src/main.go lines 118-123).  Latency is an abstract
duration in nanoseconds.  Field defaults are Go's zero values. -/
structure Result where
  url : String
  status : Nat := 0
  err : Option String := none
  latency : Nat := 0
deriving Repr, DecidableEq

instance : Inhabited Result := ⟨{ url := "" }⟩

/-- Outcome of `httpClient.Do`: either an HTTP response carrying a status
code, or a failure with no HTTP response (connection failure, timeout,
transport failure). -/
inductive NetOutcome where
  | response (status : Nat)
  | failure (msg : String)
deriving Repr, DecidableEq

/-- `isValidURL` (src/main.go lines 359-362), transcribed clause by clause:
`len(s) > MinHTTPURLLength && (s[:MinHTTPURLLength] == HTTPScheme ||
(len(s) > MinHTTPSURLLength && s[:MinHTTPSURLLength] == HTTPSScheme))`. -/
def isValidURL (s : List Char) : Bool :=
  decide (MinHTTPURLLength < s.length) &&
    (s.take MinHTTPURLLength == HTTPScheme ||
      (decide (MinHTTPSURLLength < s.length) && s.take MinHTTPSURLLength == HTTPSScheme))

/-- `checkURL` (src/main.go lines 255-286): build the request (recording the
error if the address is malformed), perform it, and record either the
transport error or the response's status code.  The same logic is inlined
in the body of each `HealthCheck` goroutine (src/main.go lines 304-334). -/
def checkURL (newRequest : String → Option String) (doRequest : String → NetOutcome)
    (lat : Nat) (url : String) : Result :=
  match newRequest url with
  | some e => { url := url, err := some e, latency := lat }
  | none =>
    match doRequest url with
    | NetOutcome.failure e => { url := url, err := some e, latency := lat }
    | NetOutcome.response code => { url := url, status := code, latency := lat }

/-- Capacity of the semaphore channel in `HealthCheck`
(src/main.go line 293): `min(MaxConcurrentRequests, len(urls))`. -/
def semCap (n : Nat) : Nat := min MaxConcurrentRequests n

/-- Functional denotation of `HealthCheck` (src/main.go lines 289-340):
`results := make([]Result, len(urls))` and each goroutine writes
`results[idx]` with the probe of `urls[idx]`, so the finished slice holds,
at every index `i`, the probe result of `urls[i]`. -/
def HealthCheck (newRequest : String → Option String) (doRequest : String → NetOutcome)
    (lat : Nat) (urls : List String) : List Result :=
  List.ofFn fun i : Fin urls.length => checkURL newRequest doRequest lat (urls.get i)

/-- C4: `isValidURL(s)` returns true exactly when `s` begins with `http://`
followed by at least one further character, or begins with `https://`
followed by at least one further character; in particular it returns false
for the empty string, for other schemes, and for the scheme-only strings
`http://` and `https://`. -/
theorem isValidURL_iff_spec (s : List Char) :
    isValidURL s = true ↔
      ((HTTPScheme <+: s ∧ MinHTTPURLLength + 1 ≤ s.length) ∨
        (HTTPSScheme <+: s ∧ MinHTTPSURLLength + 1 ≤ s.length)) := by
  unfold isValidURL
  rw [show MinHTTPURLLength + 1 = 8 from rfl, show MinHTTPSURLLength + 1 = 9 from rfl]
  simp only [MinHTTPURLLength, MinHTTPSURLLength, Bool.and_eq_true, Bool.or_eq_true,
    beq_iff_eq, decide_eq_true_eq]
  constructor
  · rintro ⟨h7, htake | ⟨h8, htake⟩⟩
    · left
      refine ⟨?_, by omega⟩
      rw [← htake]
      exact List.take_prefix _ _
    · right
      refine ⟨?_, by omega⟩
      rw [← htake]
      exact List.take_prefix _ _
  · rintro (⟨hpre, hlen⟩ | ⟨hpre, hlen⟩)
    · refine ⟨by omega, Or.inl ?_⟩
      rw [List.prefix_iff_eq_take] at hpre
      exact hpre.symm
    · refine ⟨by omega, Or.inr ⟨by omega, ?_⟩⟩
      rw [List.prefix_iff_eq_take] at hpre
      exact hpre.symm

/-- C5: whenever the server returns an HTTP response — whatever the status
code — the probe is a success with that code recorded and a nil error; the
error field is set only when no HTTP response was produced: either request
creation failed (malformed address) or the transport failed (connection
failure, timeout). -/
theorem probe_response_classification (newRequest : String → Option String)
    (doRequest : String → NetOutcome) (lat : Nat) (url : String) :
    (∀ code, newRequest url = none → doRequest url = NetOutcome.response code →
        (checkURL newRequest doRequest lat url).status = code ∧
        (checkURL newRequest doRequest lat url).err = none) ∧
    (∀ e, (checkURL newRequest doRequest lat url).err = some e →
        newRequest url = some e ∨
        (newRequest url = none ∧ doRequest url = NetOutcome.failure e)) := by
  constructor
  · intro code hreq hresp
    simp [checkURL, hreq, hresp]
  · intro e herr
    unfold checkURL at herr
    cases hreq : newRequest url with
    | some e0 =>
      rw [hreq] at herr
      simp only at herr
      left
      exact herr
    | none =>
      rw [hreq] at herr
      cases hresp : doRequest url with
      | failure m =>
        rw [hresp] at herr
        simp only at herr
        exact Or.inr ⟨rfl, by rw [Option.some.inj herr]⟩
      | response code =>
        rw [hresp] at herr
        simp at herr

/-- Helper: mutual exclusion of the `status` and `err` fields of one
`checkURL` result, assuming the transport only ever reports genuine HTTP
status codes (which are at least 100). -/
theorem checkURL_err_status (newRequest : String → Option String)
    (doRequest : String → NetOutcome) (lat : Nat) (url : String)
    (hhttp : ∀ u c, doRequest u = NetOutcome.response c → 100 ≤ c) :
    ((checkURL newRequest doRequest lat url).err = none ↔
      (checkURL newRequest doRequest lat url).status ≠ 0) ∧
    (∀ e, (checkURL newRequest doRequest lat url).err = some e →
      (checkURL newRequest doRequest lat url).status = 0) ∧
    ((checkURL newRequest doRequest lat url).err = none →
      ∃ c, doRequest url = NetOutcome.response c ∧
        (checkURL newRequest doRequest lat url).status = c) := by
  unfold checkURL
  cases hreq : newRequest url with
  | some e0 => simp
  | none =>
    cases hresp : doRequest url with
    | failure m => simp
    | response code =>
      have hc := hhttp url code hresp
      simp only [ne_eq]
      refine ⟨by simp; omega, by simp, ?_⟩
      intro _
      exact ⟨code, rfl, rfl⟩

/-- C3: every finalized result of `checkURL` or `HealthCheck` has exactly
one of `status` / `err` set: a non-nil error forces a zero (unset) status, a
nil error comes with the genuine HTTP response code as status, and (statuses
being at least 100) `err = nil` holds exactly when `status ≠ 0`. -/
theorem probe_status_error_exclusive (newRequest : String → Option String)
    (doRequest : String → NetOutcome) (lat : Nat) (urls : List String) (url : String)
    (hhttp : ∀ u c, doRequest u = NetOutcome.response c → 100 ≤ c) :
    ((checkURL newRequest doRequest lat url).err = none ↔
      (checkURL newRequest doRequest lat url).status ≠ 0) ∧
    (∀ e, (checkURL newRequest doRequest lat url).err = some e →
      (checkURL newRequest doRequest lat url).status = 0) ∧
    ((checkURL newRequest doRequest lat url).err = none →
      ∃ c, doRequest url = NetOutcome.response c ∧
        (checkURL newRequest doRequest lat url).status = c) ∧
    (∀ r ∈ HealthCheck newRequest doRequest lat urls,
      (r.err = none ↔ r.status ≠ 0)) := by
  obtain ⟨h1, h2, h3⟩ := checkURL_err_status newRequest doRequest lat url hhttp
  refine ⟨h1, h2, h3, ?_⟩
  intro r hr
  unfold HealthCheck at hr
  rw [List.mem_ofFn] at hr
  obtain ⟨i, hi⟩ := hr
  rw [← hi]
  exact (checkURL_err_status newRequest doRequest lat (urls.get i) hhttp).1

/-- C3 witness: the theorem applied to a run whose transport always answers
404 (still a success with `status = 404`, `err = nil`). -/
theorem probe_status_error_exclusive_witness :
    (checkURL (fun _ => none) (fun _ => NetOutcome.response 404) 5 "http://a").err = none ↔
      (checkURL (fun _ => none) (fun _ => NetOutcome.response 404) 5 "http://a").status ≠ 0 :=
  (probe_status_error_exclusive (fun _ => none) (fun _ => NetOutcome.response 404) 5
    ["http://a"] "http://a"
    (fun _ c h => by cases h; omega)).1

/-!
Small-step model of `HealthCheck`'s concurrency (src/main.go lines 289-340).
The main goroutine acquires a semaphore token (`sem <- struct{}{}`, blocking
while `semCap` tokens are out) before spawning each probe goroutine; a probe
goroutine writes its result into its own slot `results[idx]` and releases
its token when it finishes.  `running` is the list of indices whose
goroutine holds a token (its probe is in flight); `nextIdx` is the main
loop's position. -/
structure BatchState where
  nextIdx : Nat
  running : List Nat
  results : List (Option Result)
deriving Repr, DecidableEq

/-- Start of `HealthCheck` on `n` urls: no goroutine spawned, the freshly
allocated `make([]Result, len(urls))` slice with no slot written yet. -/
def batchInit (n : Nat) : BatchState := ⟨0, [], List.replicate n none⟩

/-- One scheduler step of `HealthCheck`.  `spawn`: the main goroutine
acquires a token (possible only while fewer than `semCap n` are held) and
spawns the goroutine for index `nextIdx`.  `finish`: an in-flight probe
completes, writes `results[i]` and releases its token. -/
inductive BatchStep (n : Nat) (probe : Nat → Result) : BatchState → BatchState → Prop where
  | spawn (s : BatchState) (hn : s.nextIdx < n) (hsem : s.running.length < semCap n) :
      BatchStep n probe s ⟨s.nextIdx + 1, s.running ++ [s.nextIdx], s.results⟩
  | finish (s : BatchState) (i : Nat) (hi : i ∈ s.running) :
      BatchStep n probe s ⟨s.nextIdx, s.running.erase i, s.results.set i (some (probe i))⟩

/-- States reachable during a run of `HealthCheck` on `n` urls. -/
inductive BatchReach (n : Nat) (probe : Nat → Result) : BatchState → Prop where
  | init : BatchReach n probe (batchInit n)
  | next {s t : BatchState} : BatchReach n probe s → BatchStep n probe s t →
      BatchReach n probe t

/-- The inductive invariant of the `HealthCheck` run: the semaphore bound,
well-formedness of the bookkeeping, and the contents of every result slot. -/
def BatchInv (n : Nat) (probe : Nat → Result) (s : BatchState) : Prop :=
  s.nextIdx ≤ n ∧
  s.running.length ≤ semCap n ∧
  s.running.Nodup ∧
  (∀ i ∈ s.running, i < s.nextIdx) ∧
  s.results.length = n ∧
  (∀ i, i < n → s.results[i]? =
    some (if i < s.nextIdx ∧ i ∉ s.running then some (probe i) else none))

theorem batchInv_of_reach {n : Nat} {probe : Nat → Result} {s : BatchState}
    (h : BatchReach n probe s) : BatchInv n probe s := by
  induction h with
  | init =>
    refine ⟨Nat.zero_le n, by simp [batchInit], by simp [batchInit], ?_, by simp [batchInit], ?_⟩
    · intro i hi
      simp [batchInit] at hi
    · intro i hi
      simp [batchInit, List.getElem?_replicate, hi]
  | @next s t _ hstep ih =>
    obtain ⟨hle, hsemle, hnodup, hmem, hlen, hslot⟩ := ih
    cases hstep with
    | spawn hn hsem =>
      refine ⟨hn, by simpa using hsem, ?_, ?_, by simpa using hlen, ?_⟩
      · rw [List.nodup_append]
        refine ⟨hnodup, List.nodup_singleton _, ?_⟩
        intro a ha hb
        simp at hb
        subst hb
        exact absurd (hmem _ ha) (lt_irrefl _)
      · intro i hi
        simp only [List.mem_append, List.mem_singleton] at hi
        rcases hi with hi | hi
        · exact Nat.lt_succ_of_lt (hmem _ hi)
        · simp [hi]
      · intro i hi
        rw [hslot i hi]
        by_cases hieq : i = s.nextIdx
        · subst hieq
          simp
        · have : (i < s.nextIdx + 1 ∧ ¬(i ∈ s.running ∨ i = s.nextIdx)) ↔
              (i < s.nextIdx ∧ i ∉ s.running) := by
            constructor
            · rintro ⟨h1, h2⟩
              push_neg at h2
              exact ⟨by omega, h2.1⟩
            · rintro ⟨h1, h2⟩
              exact ⟨by omega, by push_neg; exact ⟨h2, hieq⟩⟩
          simp only [List.mem_append, List.mem_singleton]
          rw [if_congr this rfl rfl]
    | finish i hi =>
      have hilt : i < n := lt_of_lt_of_le (hmem _ hi) hle
      refine ⟨hle, ?_, hnodup.erase i, ?_, by simpa using hlen, ?_⟩
      · rw [List.length_erase_of_mem hi]
        omega
      · intro j hj
        exact hmem _ (List.mem_of_mem_erase hj)
      · intro j hj
        by_cases hji : j = i
        · subst hji
          rw [List.getElem?_set_self (by omega)]
          have : j < s.nextIdx ∧ j ∉ s.running.erase j := ⟨hmem _ hi, hnodup.not_mem_erase⟩
          simp [this]
        · rw [List.getElem?_set_ne (fun h => hji h.symm), hslot j hj,
            if_congr (and_congr_right fun _ => not_congr (List.mem_erase_of_ne hji)) rfl rfl]

/-- C1: at every reachable point of a `HealthCheck` run on `n` addresses the
number of probes concurrently in flight (goroutines holding a semaphore
token) is at most `min(MaxConcurrentRequests, n) = min(64, n)`, the
capacity of the semaphore channel. -/
theorem healthCheck_concurrency_bound (n : Nat) (probe : Nat → Result) (s : BatchState)
    (h : BatchReach n probe s) :
    s.running.length ≤ min MaxConcurrentRequests n ∧
    semCap n = min MaxConcurrentRequests n :=
  ⟨(batchInv_of_reach h).2.1, rfl⟩

/-- C1 witness: a state of the run on 200 addresses with one probe in
flight satisfies the bound `min(64, 200)`. -/
theorem healthCheck_concurrency_bound_witness :
    (BatchState.mk 1 [0] (List.replicate 200 none)).running.length ≤
      min MaxConcurrentRequests 200 :=
  (healthCheck_concurrency_bound 200 (fun _ => { url := "" }) _
    (BatchReach.next BatchReach.init
      (BatchStep.spawn (batchInit 200) (by decide) (by decide)))).1

/-- C2: when a run of `HealthCheck` on `urls` has completed (the main loop
spawned all `len(urls)` goroutines and every in-flight probe finished and
released its token), the `results` slice has exactly one entry per input
url, and the entry at every index `i` is the probe result of `urls[i]` —
order preserved, no loss, no duplication; duplicate addresses each fill
their own slot. -/
theorem healthCheck_batch_results (newRequest : String → Option String)
    (doRequest : String → NetOutcome) (lat : Nat) (urls : List String) (s : BatchState)
    (hreach : BatchReach urls.length
      (fun i => checkURL newRequest doRequest lat (urls.getD i "")) s)
    (hdone : s.nextIdx = urls.length) (hidle : s.running = []) :
    (HealthCheck newRequest doRequest lat urls).length = urls.length ∧
    s.results = (HealthCheck newRequest doRequest lat urls).map some ∧
    (∀ i (h1 : i < urls.length) (h2 : i < (HealthCheck newRequest doRequest lat urls).length),
      (HealthCheck newRequest doRequest lat urls).get ⟨i, h2⟩ =
        checkURL newRequest doRequest lat (urls.get ⟨i, h1⟩)) := by
  obtain ⟨_, _, _, _, hlen, hslot⟩ := batchInv_of_reach hreach
  refine ⟨List.length_ofFn _, ?_, ?_⟩
  · apply List.ext_getElem?
    intro i
    by_cases hi : i < urls.length
    · rw [hslot i hi, List.getElem?_map]
      unfold HealthCheck
      rw [List.getElem?_eq_getElem (by rw [List.length_ofFn]; exact hi),
        List.getElem_ofFn]
      simp only [Option.map_some]
      rw [hdone, hidle]
      simp only [List.not_mem_nil, not_false_iff, and_true, if_pos hi]
      rw [List.getD_eq_getElem urls "" hi]
      rfl
    · rw [List.getElem?_eq_none (by omega), List.getElem?_eq_none]
      rw [List.length_map]
      unfold HealthCheck
      rw [List.length_ofFn]
      omega
  · intro i h1 h2
    unfold HealthCheck
    rw [List.get_ofFn]
    rfl

/-- C2 witness: the completed run on the one-address list `["http://a"]`
(init, spawn index 0, finish index 0) yields exactly the probe result of
`"http://a"` in slot 0. -/
theorem healthCheck_batch_results_witness :
    (BatchState.mk 1 ([0].erase 0)
        ((List.replicate 1 none).set 0
          (some (checkURL (fun _ => none) (fun _ => NetOutcome.response 200) 5
            (["http://a"].getD 0 "")))) : BatchState).results =
      (HealthCheck (fun _ => none) (fun _ => NetOutcome.response 200) 5 ["http://a"]).map some :=
  (healthCheck_batch_results (fun _ => none) (fun _ => NetOutcome.response 200) 5
    ["http://a"] _
    (BatchReach.next (BatchReach.next BatchReach.init
        (BatchStep.spawn (batchInit 1) (by decide) (by decide)))
      (BatchStep.finish _ 0 (by decide)))
    rfl (by decide)).2.1

/-- C10: `HealthCheck` on the empty address list returns the empty result
list; the semaphore channel is created with capacity `min(64, 0) = 0`, yet
the run terminates without blocking because its initial state is already
completed (`nextIdx = 0 = len(urls)`, nothing running) and no step — in
particular no token acquisition — is even enabled. -/
theorem healthCheck_empty_input (newRequest : String → Option String)
    (doRequest : String → NetOutcome) (lat : Nat) :
    HealthCheck newRequest doRequest lat [] = [] ∧
    semCap 0 = 0 ∧
    (batchInit 0).nextIdx = 0 ∧ (batchInit 0).running = [] ∧ (batchInit 0).results = [] ∧
    (∀ (probe : Nat → Result) (t : BatchState), ¬ BatchStep 0 probe (batchInit 0) t) := by
  refine ⟨rfl, rfl, rfl, rfl, rfl, ?_⟩
  intro probe t h
  cases h with
  | spawn hn hsem => exact absurd hn (by decide)
  | finish i hi => exact absurd hi (by simp [batchInit])

/-!
The CLI layer (src/main.go lines 135-163, 343-356).  The process
environment is abstracted as the values the mocked points `osGeteuid`,
`osGetuid`, `osGetenv` return, and the file system as a partial map from a
path to the file's lines (`none` = `os.Open` fails). -/
structure Env where
  euid : Int
  uid : Int
  sudoUid : String
  sudoUser : String
deriving Repr, DecidableEq

/-- `validateExecution` (src/main.go lines 343-350): the message `fatal` is
called with, or `none` when execution is allowed.  The SUID/SGID case is
checked first, as in the Go `switch`. -/
def validateExecution (env : Env) : Option String :=
  if env.euid != env.uid then some "SUID/SGID execution denied"
  else if env.sudoUid != "" then
    some ("sudo execution denied (user: " ++ env.sudoUser ++ ")")
  else none

/-- The events the streaming producer goroutine generates from the input
lines (src/main.go lines 189-209), with 1-based line numbers: a blank line
is skipped, a line failing `isValidURL` produces a warning, any other line
is sent on to the workers to be probed. -/
inductive LineEvent where
  | probe (url : String)
  | invalidLine (lineNum : Nat) (url : String)
deriving Repr, DecidableEq

/-- The producer loop of `streamHealthCheckWithContext`
(src/main.go lines 189-209); `lineNum` is the count of lines already read. -/
def producerEvents : List String → Nat → List LineEvent
  | [], _ => []
  | l :: ls, lineNum =>
    if l = "" then producerEvents ls (lineNum + 1)
    else if isValidURL l.toList then LineEvent.probe l :: producerEvents ls (lineNum + 1)
    else LineEvent.invalidLine (lineNum + 1) l :: producerEvents ls (lineNum + 1)

/-- `streamHealthCheck` / `streamHealthCheckWithContext`
(src/main.go lines 171-252): the producer's events together with the exit
code, which is unconditionally `ExitSuccess` (line 251 is its only
return). -/
def streamHealthCheck (lines : List String) : List LineEvent × Nat :=
  (producerEvents lines 0, ExitSuccess)

/-- What a `run` invocation does at the process level: `fatalStop msg`
models `fatal` (src/main.go lines 353-356) — `msg` printed to stderr and
`osExit(ExitError)` before anything else happens; `exitWith code events`
models `run` returning `code` to `main` after the streaming pass produced
`events`. -/
inductive RunResult where
  | fatalStop (stderrMsg : String)
  | exitWith (code : Nat) (events : List LineEvent)
deriving Repr, DecidableEq

/-- `fatal` (src/main.go lines 353-356): prints `Error: <msg>\n` to stderr
and exits with `ExitError`. -/
def fatal (msg : String) : RunResult :=
  RunResult.fatalStop ("Error: " ++ msg ++ "\n")

/-- The exit code the process ends with for a given `RunResult`:
`fatal` calls `osExit(ExitError)`, otherwise `main` passes `run`'s return
value to `osExit`. -/
def exitCodeOf : RunResult → Nat
  | RunResult.fatalStop _ => ExitError
  | RunResult.exitWith code _ => code

/-- `run` (src/main.go lines 139-163): privilege validation first, then the
missing-file-argument check, then `os.Open`, then the streaming health
check over the file's lines. -/
def run (env : Env) (args : List String) (fs : String → Option (List String)) : RunResult :=
  match validateExecution env with
  | some msg => fatal msg
  | none =>
    match args with
    | _ :: path :: _ =>
      match fs path with
      | none => RunResult.exitWith ExitError []
      | some lines =>
        RunResult.exitWith (streamHealthCheck lines).2 (streamHealthCheck lines).1
    | _ => RunResult.exitWith ExitError []

/-- C6 counterexample: an input file whose only line is the invalid address
`not-a-url` does NOT make `run` return exit code 1 — the streaming path
prints a per-line warning, skips the address (no probe event), and `run`
returns `ExitSuccess`, contradicting the claim that an invalid address
rejected before probing yields exit code 1. -/
theorem run_invalid_url_exit_zero :
    isValidURL "not-a-url".toList = false ∧
    run ⟨1000, 1000, "", ""⟩ ["prog", "services.txt"]
        (fun p => if p = "services.txt" then some ["not-a-url"] else none) =
      RunResult.exitWith ExitSuccess [LineEvent.invalidLine 1 "not-a-url"] ∧
    ExitSuccess ≠ ExitError := by
  refine ⟨by decide, by decide, by decide⟩

/-- C6 (amended): with privilege validation passing, `run` returns exit code
1 exactly on the two setup failures — a missing file argument or an
unreadable input file — and returns exit code 0 on every run that completed,
including runs whose input contains invalid addresses (each is skipped with
a diagnostic and never probed) or probe failures. -/
theorem run_exit_codes (env : Env) (args : List String) (fs : String → Option (List String))
    (hok : validateExecution env = none) :
    (args.length < 2 → run env args fs = RunResult.exitWith ExitError []) ∧
    (∀ a path rest, args = a :: path :: rest → fs path = none →
      run env args fs = RunResult.exitWith ExitError []) ∧
    (∀ a path rest lines, args = a :: path :: rest → fs path = some lines →
      run env args fs = RunResult.exitWith ExitSuccess (producerEvents lines 0)) := by
  refine ⟨?_, ?_, ?_⟩
  · intro hlen
    unfold run
    rw [hok]
    match args, hlen with
    | [], _ => rfl
    | [a], _ => rfl
  · intro a path rest hargs hfs
    subst hargs
    unfold run
    rw [hok]
    simp only [hfs]
  · intro a path rest lines hargs hfs
    subst hargs
    unfold run
    rw [hok]
    simp only [hfs]
    rfl

/-- C6 witness: with an ordinary environment and a readable one-line file,
`run` completes with exit code 0. -/
theorem run_exit_codes_witness :
    run ⟨1000, 1000, "", ""⟩ ["prog", "f"] (fun _ => some ["http://a"]) =
      RunResult.exitWith ExitSuccess (producerEvents ["http://a"] 0) :=
  (run_exit_codes ⟨1000, 1000, "", ""⟩ ["prog", "f"] (fun _ => some ["http://a"])
    (by decide)).2.2 "prog" "f" [] ["http://a"] rfl rfl

/-- C9: whenever the effective UID differs from the real UID or `SUDO_UID`
is non-empty, `run` ends in `fatal`: an `Error: ...` message on stderr and
process termination with exit code 1 — and this outcome is the same
whatever the arguments and the file system, i.e. it happens before the file
argument is read and before any probing. -/
theorem run_refuses_elevated_privileges (env : Env)
    (h : env.euid ≠ env.uid ∨ env.sudoUid ≠ "") :
    ∃ msg, ∀ (args : List String) (fs : String → Option (List String)),
      run env args fs = RunResult.fatalStop ("Error: " ++ msg ++ "\n") ∧
      exitCodeOf (run env args fs) = ExitError ∧
      ∀ (args2 : List String) (fs2 : String → Option (List String)),
        run env args fs = run env args2 fs2 := by
  have hval : ∃ msg, validateExecution env = some msg := by
    unfold validateExecution
    rcases h with h | h
    · rw [if_pos (by simpa [bne_iff_ne] using h)]
      exact ⟨_, rfl⟩
    · by_cases heq : env.euid != env.uid
      · rw [if_pos heq]
        exact ⟨_, rfl⟩
      · rw [if_neg heq, if_pos (by simpa [bne_iff_ne] using h)]
        exact ⟨_, rfl⟩
  obtain ⟨msg, hmsg⟩ := hval
  refine ⟨msg, fun args fs => ⟨?_, ?_, ?_⟩⟩
  · unfold run
    rw [hmsg]
    rfl
  · unfold run
    rw [hmsg]
    rfl
  · intro args2 fs2
    unfold run
    rw [hmsg]

/-- C9 witness: a process started with `sudo` (SUDO_UID non-empty, euid =
uid = 0) is refused with exit code 1 regardless of arguments and files. -/
theorem run_refuses_elevated_privileges_witness :
    ∃ msg, ∀ (args : List String) (fs : String → Option (List String)),
      run ⟨0, 0, "501", "florent"⟩ args fs = RunResult.fatalStop ("Error: " ++ msg ++ "\n") ∧
      exitCodeOf (run ⟨0, 0, "501", "florent"⟩ args fs) = ExitError ∧
      ∀ (args2 : List String) (fs2 : String → Option (List String)),
        run ⟨0, 0, "501", "florent"⟩ args fs = run ⟨0, 0, "501", "florent"⟩ args2 fs2 :=
  run_refuses_elevated_privileges ⟨0, 0, "501", "florent"⟩ (Or.inr (by decide))

/-- `GetServices` (src/main.go lines 365-373): scans the input lines and
appends every scanned line — with no blank-line or validity filtering — to
the returned url list. -/
def GetServices (lines : List String) : List String :=
  lines.foldl (fun urls l => urls ++ [l]) []

/-- The address a producer event is about. -/
def eventURL : LineEvent → String
  | LineEvent.probe url => url
  | LineEvent.invalidLine _ url => url

/-- Helper: the append loop of `GetServices` returns its accumulator
followed by all scanned lines. -/
theorem getServices_loop (lines : List String) :
    ∀ acc : List String, lines.foldl (fun urls l => urls ++ [l]) acc = acc ++ lines := by
  induction lines with
  | nil => intro acc; simp
  | cons l ls ih =>
    intro acc
    rw [List.foldl_cons, ih (acc ++ [l])]
    simp

/-- C7 counterexample: a blank line is NOT treated as absent by
`GetServices` — it is returned as a candidate address of the batch path
(where src/unnamed/part_001's `run` then hands it to the validator and
aborts), contradicting the claim for the `GetServices`/`HealthCheck`
path. -/
theorem getServices_keeps_blank_lines :
    GetServices ["", "http://example.com"] = ["", "http://example.com"] ∧
    "" ∈ GetServices ["", "http://example.com"] := by
  refine ⟨by decide, by decide⟩

/-- C7 (amended): in the streaming path a blank line is treated as absent —
it yields no candidate address, is never passed to the validator, is never
probed and produces no event (though it still advances the line counter) —
whereas `GetServices` returns every line of its input, blank lines
included, as candidate addresses. -/
theorem blank_lines_streaming_vs_batch :
    (∀ (ls : List String) (n : Nat), producerEvents ("" :: ls) n = producerEvents ls (n + 1)) ∧
    (∀ (lines : List String) (n : Nat) (e : LineEvent),
      e ∈ producerEvents lines n → eventURL e ≠ "") ∧
    (∀ lines : List String, GetServices lines = lines) := by
  refine ⟨fun ls n => by rw [producerEvents, if_pos rfl], ?_, ?_⟩
  · intro lines
    induction lines with
    | nil => intro n e he; simp [producerEvents] at he
    | cons l ls ih =>
      intro n e he
      rw [producerEvents] at he
      by_cases hblank : l = ""
      · rw [if_pos hblank] at he
        exact ih (n + 1) e he
      · rw [if_neg hblank] at he
        by_cases hvalid : isValidURL l.toList
        · rw [if_pos hvalid] at he
          rcases List.mem_cons.mp he with he | he
          · subst he; exact hblank
          · exact ih (n + 1) e he
        · rw [if_neg hvalid] at he
          rcases List.mem_cons.mp he with he | he
          · subst he; exact hblank
          · exact ih (n + 1) e he
  · intro lines
    rw [GetServices, getServices_loop lines []]
    rfl

/-!
Small-step model of the streaming pipeline's cancellation behaviour
(src/main.go lines 175-252), focused on one worker (the 64 workers are
symmetric).  `input` is the list of validated urls the producer has yet to
send, `urlBuf` the buffered url channel (capacity `MaxConcurrentRequests`),
`resBuf` the occupancy of the buffered result channel (same capacity),
`prodReturned` whether the producer goroutine has returned (closing
`urlChan` via its defer), and `worker` where the worker goroutine is:
receiving on `range urlChan`, holding a computed result at its send
`select`, or returned.  Both `select` statements follow Go semantics: when
several arms are ready, ANY ready arm may be chosen. -/
inductive WState where
  | pulling
  | pushing (r : Result)
  | returned
deriving Repr, DecidableEq

structure SState where
  cancelled : Bool
  input : List String
  urlBuf : List String
  resBuf : Nat
  prodReturned : Bool
  worker : WState
deriving Repr, DecidableEq

/-- One step of the streaming pipeline.
`cancel` — the context is cancelled (caller request or the deferred
`cancel()`).  `prodSend`/`prodCancel` — the two arms of the producer's
`select` (lines 204-208): send the url when the channel has room (possible
even when cancelled — Go picks any ready arm), or return on `ctx.Done()`.
`prodDone` — end of input, the producer returns and its defer closes
`urlChan`.  `workerTake` — `range urlChan` receives a buffered url (no
context check there) and the worker computes `checkURL`.
`workerPush`/`workerCancel` — the two arms of the worker's `select`
(lines 226-230).  `workerExit` — `range` ends on the closed, drained
channel.  `consume` — the consumer pops a result (lines 242-249). -/
inductive StreamStep (newRequest : String → Option String) (doRequest : String → NetOutcome)
    (lat : Nat) : SState → SState → Prop where
  | cancel (s : SState) :
      StreamStep newRequest doRequest lat s { s with cancelled := true }
  | prodSend (s : SState) (u : String) (rest : List String)
      (hin : s.input = u :: rest) (hp : s.prodReturned = false)
      (hcap : s.urlBuf.length < MaxConcurrentRequests) :
      StreamStep newRequest doRequest lat s
        { s with input := rest, urlBuf := s.urlBuf ++ [u] }
  | prodCancel (s : SState) (u : String) (rest : List String)
      (hin : s.input = u :: rest) (hp : s.prodReturned = false)
      (hc : s.cancelled = true) :
      StreamStep newRequest doRequest lat s { s with prodReturned := true }
  | prodDone (s : SState) (hin : s.input = []) (hp : s.prodReturned = false) :
      StreamStep newRequest doRequest lat s { s with prodReturned := true }
  | workerTake (s : SState) (u : String) (rest : List String)
      (hw : s.worker = WState.pulling) (hb : s.urlBuf = u :: rest) :
      StreamStep newRequest doRequest lat s
        { s with urlBuf := rest,
                 worker := WState.pushing (checkURL newRequest doRequest lat u) }
  | workerExit (s : SState) (hw : s.worker = WState.pulling) (hb : s.urlBuf = [])
      (hp : s.prodReturned = true) :
      StreamStep newRequest doRequest lat s { s with worker := WState.returned }
  | workerPush (s : SState) (r : Result) (hw : s.worker = WState.pushing r)
      (hcap : s.resBuf < MaxConcurrentRequests) :
      StreamStep newRequest doRequest lat s
        { s with resBuf := s.resBuf + 1, worker := WState.pulling }
  | workerCancel (s : SState) (r : Result) (hw : s.worker = WState.pushing r)
      (hc : s.cancelled = true) :
      StreamStep newRequest doRequest lat s { s with worker := WState.returned }
  | consume (s : SState) (h : 0 < s.resBuf) :
      StreamStep newRequest doRequest lat s { s with resBuf := s.resBuf - 1 }

/-- Finitely many steps of the streaming pipeline. -/
inductive StreamSteps (newRequest : String → Option String) (doRequest : String → NetOutcome)
    (lat : Nat) : SState → SState → Prop where
  | refl (s : SState) : StreamSteps newRequest doRequest lat s s
  | tail {s t u : SState} : StreamSteps newRequest doRequest lat s t →
      StreamStep newRequest doRequest lat t u → StreamSteps newRequest doRequest lat s u

/-- A cancelled streaming state with one pending address and room in the
url channel. -/
def cancelledState : SState :=
  { cancelled := true, input := ["http://a"], urlBuf := [], resBuf := 0,
    prodReturned := false, worker := WState.pulling }

/-- C8 counterexample: from a state in which cancellation has already been
raised (and the url channel has room), the producer's `select` may still
choose its send arm — Go's `select` picks any ready arm — so a further
address IS admitted to the workers after cancellation, contradicting "no
further address is admitted (the producer stops sending)". -/
theorem stream_send_after_cancel :
    cancelledState.cancelled = true ∧
    StreamStep (fun _ => none) (fun _ => NetOutcome.response 200) 0 cancelledState
      { cancelledState with input := [], urlBuf := ["http://a"] } :=
  ⟨rfl, StreamStep.prodSend cancelledState "http://a" [] rfl rfl (by decide)⟩

/-- Helper: paths compose. -/
theorem streamSteps_trans {newRequest : String → Option String}
    {doRequest : String → NetOutcome} {lat : Nat} {s t u : SState}
    (h1 : StreamSteps newRequest doRequest lat s t)
    (h2 : StreamSteps newRequest doRequest lat t u) :
    StreamSteps newRequest doRequest lat s u := by
  induction h2 with
  | refl => exact h1
  | tail _ hstep ih => exact StreamSteps.tail ih hstep

/-- Helper: once the context is cancelled and the producer has returned, the
worker can always reach `returned` in at most two steps (take then the
`ctx.Done()` arm, the `ctx.Done()` arm directly, or `range` exit on the
closed drained channel): it never stays parked. -/
theorem stream_worker_drain (newRequest : String → Option String)
    (doRequest : String → NetOutcome) (lat : Nat) (s : SState)
    (hc : s.cancelled = true) (hp : s.prodReturned = true) :
    ∃ t, StreamSteps newRequest doRequest lat s t ∧
      t.prodReturned = true ∧ t.worker = WState.returned := by
  cases hw : s.worker with
  | returned => exact ⟨s, StreamSteps.refl s, hp, hw⟩
  | pushing r =>
    exact ⟨{ s with worker := WState.returned },
      StreamSteps.tail (StreamSteps.refl s) (StreamStep.workerCancel s r hw hc), hp, rfl⟩
  | pulling =>
    cases hb : s.urlBuf with
    | nil =>
      exact ⟨{ s with worker := WState.returned },
        StreamSteps.tail (StreamSteps.refl s) (StreamStep.workerExit s hw hb hp), hp, rfl⟩
    | cons u rest =>
      refine ⟨{ s with urlBuf := rest, worker := WState.returned }, ?_, hp, rfl⟩
      exact StreamSteps.tail
        (StreamSteps.tail (StreamSteps.refl s)
          (StreamStep.workerTake s u rest hw hb))
        (StreamStep.workerCancel _ (checkURL newRequest doRequest lat u) rfl hc)

/-- C8 (amended): once cancellation is raised, no task can stay blocked: a
worker parked on pushing to the full output queue has its `ctx.Done()` arm
enabled and can return at once, the producer (if still running) can return
at once, and a state where both the producer and the worker have returned is
always reachable — no task leaks.  The producer is NOT guaranteed to stop
sending, though: while the url channel has room, Go's `select` may keep
choosing the send arm, so further addresses may be admitted after
cancellation. -/
theorem stream_cancel_no_leak (newRequest : String → Option String)
    (doRequest : String → NetOutcome) (lat : Nat) (s : SState)
    (hc : s.cancelled = true) :
    (∀ r, s.worker = WState.pushing r →
      StreamStep newRequest doRequest lat s { s with worker := WState.returned }) ∧
    (s.prodReturned = false →
      StreamStep newRequest doRequest lat s { s with prodReturned := true }) ∧
    (∃ t, StreamSteps newRequest doRequest lat s t ∧
      t.prodReturned = true ∧ t.worker = WState.returned) := by
  have hprod : s.prodReturned = false →
      StreamStep newRequest doRequest lat s { s with prodReturned := true } := by
    intro hp
    obtain hin | ⟨u, rest, hin⟩ : s.input = [] ∨ ∃ u rest, s.input = u :: rest := by
      cases s.input with
      | nil => exact Or.inl rfl
      | cons a l => exact Or.inr ⟨a, l, rfl⟩
    · exact StreamStep.prodDone s hin hp
    · exact StreamStep.prodCancel s u rest hin hp hc
  refine ⟨fun r hw => StreamStep.workerCancel s r hw hc, hprod, ?_⟩
  by_cases hp : s.prodReturned = true
  · exact stream_worker_drain newRequest doRequest lat s hc hp
  · have hp' : s.prodReturned = false := by
      revert hp
      cases s.prodReturned <;> simp
    obtain ⟨t, hsteps, hpt, hwt⟩ :=
      stream_worker_drain newRequest doRequest lat { s with prodReturned := true } hc rfl
    exact ⟨t, streamSteps_trans
      (StreamSteps.tail (StreamSteps.refl s) (hprod hp')) hsteps, hpt, hwt⟩

/-- C8 witness: from the concrete cancelled state a state with both the
producer and the worker returned is reachable. -/
theorem stream_cancel_no_leak_witness :
    ∃ t, StreamSteps (fun _ => none) (fun _ => NetOutcome.response 200) 0 cancelledState t ∧
      t.prodReturned = true ∧ t.worker = WState.returned :=
  (stream_cancel_no_leak (fun _ => none) (fun _ => NetOutcome.response 200) 0
    cancelledState rfl).2.2

end Tf1
